import Mathlib

/-!
Verification of the core logic of the ET-maps dashboard (`src/app.py`).

The Python source manipulates floating-point scores, pandas data frames and
strings.  The shallow embedding below renders scores as rationals (`ℚ`),
missing cells (`NaN`) as `Option.none`, data-frame rows as association lists,
and fallible pandas operations as `Except`.  Each definition mirrors one
function or code block of `src/app.py`; the theorems at the end of the file
settle the frozen claims about that code.
-/

namespace ETMaps

/-- Embeds `get_color` (src/app.py lines 79-89): the five-band colour
assignment by descending threshold tests. -/
def get_color (score : ℚ) : String :=
  if score ≥ 0.95 then "#008000"
  else if score ≥ 0.90 then "#90EE90"
  else if score ≥ 0.85 then "#FFFF00"
  else if score ≥ 0.80 then "#FF4500"
  else "#8B0000"

/-- Embeds `get_category` (src/app.py lines 103-113): the five-band category
assignment, 5 highest. -/
def get_category (score : ℚ) : ℕ :=
  if score ≥ 0.95 then 5
  else if score ≥ 0.90 then 4
  else if score ≥ 0.85 then 3
  else if score ≥ 0.80 then 2
  else 1

/-- Embeds the `(category, color, label)` legend triples iterated at
src/app.py lines 125-131. -/
def categoryTriples : List (ℕ × String × String) :=
  [(5, "#008000", ">= 0.95"),
   (4, "#90EE90", "0.90-0.94"),
   (3, "#FFFF00", "0.85-0.89"),
   (2, "#FF4500", "0.80-0.84"),
   (1, "#8B0000", "< 0.80")]

/-- Embeds the legend scale-bounds computation (src/app.py lines 118-119):
`min_val = min(col.min(), 0.5)` and `max_val = max(col.max(), 1.0)`.  The
pandas column minimum/maximum of an empty column is `NaN`, rendered here as
`none`. -/
def legendBounds (scores : List ℚ) : Option (ℚ × ℚ) :=
  match scores.min?, scores.max? with
  | some mn, some mx => some (min mn 0.5, max mx 1)
  | _, _ => none

/-- claim C1: for every score, `get_category` assigns exactly one of the five
ordered categories; on `[0,1]` the five ranges `< 0.80`, `[0.80, 0.85)`,
`[0.85, 0.90)`, `[0.90, 0.95)`, `≥ 0.95` partition the interval with no gaps
or overlaps (each score satisfies the range of its category and no other),
and each boundary value 0.80, 0.85, 0.90, 0.95 maps to the upper band
(0.90 yields category 4, not 3). -/
theorem c1_classifier_partition (s : ℚ) (h0 : 0 ≤ s) (h1 : s ≤ 1) :
    (1 ≤ get_category s ∧ get_category s ≤ 5) ∧
    (get_category s = 1 ↔ s < 0.80) ∧
    (get_category s = 2 ↔ 0.80 ≤ s ∧ s < 0.85) ∧
    (get_category s = 3 ↔ 0.85 ≤ s ∧ s < 0.90) ∧
    (get_category s = 4 ↔ 0.90 ≤ s ∧ s < 0.95) ∧
    (get_category s = 5 ↔ 0.95 ≤ s) ∧
    get_category (0.80 : ℚ) = 2 ∧ get_category (0.85 : ℚ) = 3 ∧
    get_category (0.90 : ℚ) = 4 ∧ get_category (0.95 : ℚ) = 5 := by
  have hb1 : get_category (0.80 : ℚ) = 2 := by norm_num [get_category]
  have hb2 : get_category (0.85 : ℚ) = 3 := by norm_num [get_category]
  have hb3 : get_category (0.90 : ℚ) = 4 := by norm_num [get_category]
  have hb4 : get_category (0.95 : ℚ) = 5 := by norm_num [get_category]
  refine ⟨?_, ?_, ?_, ?_, ?_, ?_, hb1, hb2, hb3, hb4⟩ <;>
      unfold get_category <;> split_ifs with ha hb hc hd <;> push_neg at *
  case _ => exact ⟨by norm_num, by norm_num⟩
  case _ => exact ⟨by norm_num, by norm_num⟩
  case _ => exact ⟨by norm_num, by norm_num⟩
  case _ => exact ⟨by norm_num, by norm_num⟩
  case _ => exact ⟨by norm_num, by norm_num⟩
  all_goals
    constructor <;> intro h <;>
      first
        | rfl
        | (exfalso; omega)
        | linarith
        | (constructor <;> linarith)

/-- Witness for C1 at the concrete boundary score 0.90. -/
theorem c1_classifier_partition_witness : get_category (0.90 : ℚ) = 4 :=
  (c1_classifier_partition 0.90 (by norm_num) (by norm_num)).2.2.2.2.2.2.2.2.1

/-- claim C10: for every score, the colour assigned by `get_color` is exactly
the colour attached to the category assigned by `get_category` in the fixed
legend triples (5 dark green, 4 light green, 3 yellow, 2 orange red,
1 dark red): the two functions place every score in the same band. -/
theorem c10_color_matches_category (s : ℚ) :
    ∃ lbl, List.lookup (get_category s) categoryTriples = some (get_color s, lbl) := by
  unfold get_color get_category categoryTriples
  split_ifs <;> exact ⟨_, rfl⟩

/-- claim C6: for a non-empty list of observed scores the legend bounds are
`lower = min(minimum, 0.5)` and `upper = max(maximum, 1.0)`; when every score
lies in `[0.5, 1.0]` the bounds are exactly `(0.5, 1.0)`, and an observed
score of 0.4 that is also the least score makes the lower bound 0.4. -/
theorem c6_legend_bounds (scores : List ℚ) (mn mx : ℚ)
    (hmn : scores.min? = some mn) (hmx : scores.max? = some mx) :
    legendBounds scores = some (min mn 0.5, max mx 1) ∧
    ((∀ x ∈ scores, 0.5 ≤ x ∧ x ≤ 1) → legendBounds scores = some (0.5, 1)) ∧
    (((0.4 : ℚ) ∈ scores ∧ ∀ x ∈ scores, 0.4 ≤ x) →
      (legendBounds scores).map Prod.fst = some 0.4) := by
  have hmem : mn ∈ scores := List.min?_mem (fun a b => min_choice a b) hmn
  have hle : ∀ x ∈ scores, mn ≤ x := fun x hx =>
    ((List.le_min?_iff (fun a b c => le_min_iff) hmn).mp (le_refl mn)) x hx
  have hmem2 : mx ∈ scores := List.max?_mem (fun a b => max_choice a b) hmx
  have hge : ∀ x ∈ scores, x ≤ mx := fun x hx =>
    ((List.max?_le_iff (fun a b c => max_le_iff) hmx).mp (le_refl mx)) x hx
  have hlb : legendBounds scores = some (min mn 0.5, max mx 1) := by
    unfold legendBounds; rw [hmn, hmx]
  refine ⟨hlb, ?_, ?_⟩
  · intro hall
    have h1 : (0.5 : ℚ) ≤ mn := (hall mn hmem).1
    have h2 : mx ≤ 1 := (hall mx hmem2).2
    rw [hlb, min_eq_right h1, max_eq_right h2]
  · rintro ⟨h04, hall⟩
    have hmn4 : mn = 0.4 := le_antisymm (hle _ h04) (hall mn hmem)
    rw [hlb, hmn4]
    have : min (0.4 : ℚ) 0.5 = 0.4 := min_eq_left (by norm_num)
    rw [this]
    rfl

/-- Witness for C6 on the concrete observed scores `[0.4, 0.9]`. -/
theorem c6_legend_bounds_witness :
    (legendBounds [0.4, 0.9]).map Prod.fst = some 0.4 :=
  (c6_legend_bounds [0.4, 0.9] 0.4 0.9 (by norm_num [List.min?])
      (by norm_num [List.max?])).2.2
    ⟨by norm_num, by
      intro x hx
      simp only [List.mem_cons, List.not_mem_nil, or_false] at hx
      rcases hx with rfl | rfl <;> norm_num⟩

/-- Embeds one row of the aggregate `delta` table (src/app.py): the cleaned
country name and the two mean scores `mean_SJSD_ET` and `mean_SJSD_Baseline`. -/
structure DeltaRow where
  country_clean : String
  et : ℚ
  baseline : ℚ
deriving Repr, DecidableEq

/-- Embeds the country summary lookup (src/app.py lines 213-219): the first
row whose cleaned country name matches the selection yields the two scores
and their signed difference; with no matching row the scores stay `NaN` and
no metric triple is produced, rendered here as `none`. -/
def summaryLookup (c : String) (tbl : List DeltaRow) : Option (ℚ × ℚ × ℚ) :=
  match tbl.find? (fun r => r.country_clean == c) with
  | some r => some (r.et, r.baseline, r.et - r.baseline)
  | none => none

/-- claim C5: a country key with no matching row makes the summary lookup
signal absence (`none`) and never the triple `(0, 0, 0)`; a matching row
(under the one-row-per-country invariant) yields that row's two scores
together with their signed difference `score_et - score_baseline`. -/
theorem c5_summary_lookup (c : String) (tbl : List DeltaRow) :
    ((∀ r ∈ tbl, r.country_clean ≠ c) →
      summaryLookup c tbl = none ∧ summaryLookup c tbl ≠ some (0, 0, 0)) ∧
    (∀ r ∈ tbl, r.country_clean = c → (tbl.map DeltaRow.country_clean).Nodup →
      summaryLookup c tbl = some (r.et, r.baseline, r.et - r.baseline)) := by
  constructor
  · intro habs
    have hnone : tbl.find? (fun r => r.country_clean == c) = none := by
      rw [List.find?_eq_none]
      intro r hr
      simpa using habs r hr
    unfold summaryLookup
    rw [hnone]
    exact ⟨rfl, by simp⟩
  · intro r hr hc hnd
    unfold summaryLookup
    induction tbl with
    | nil => cases hr
    | cons a l ih =>
      simp only [List.map_cons] at hnd
      rcases List.mem_cons.mp hr with rfl | hr
      · simp [List.find?_cons, hc]
      · have hne : a.country_clean ≠ c := by
          intro hac
          have : r.country_clean ∈ l.map DeltaRow.country_clean :=
            List.mem_map_of_mem _ hr
          rw [hc, ← hac] at this
          exact (List.nodup_cons.mp hnd).1 this
        have : (a.country_clean == c) = false := by simpa using hne
        rw [List.find?_cons, this]
        exact ih hr (List.nodup_cons.mp hnd).2

/-- Witness for C5 on a concrete two-row table. -/
theorem c5_summary_lookup_witness :
    summaryLookup "France" [⟨"Spain", 0.7, 0.8⟩, ⟨"France", 0.92, 0.88⟩] =
      some (0.92, 0.88, 0.92 - 0.88) :=
  (c5_summary_lookup "France" [⟨"Spain", 0.7, 0.8⟩, ⟨"France", 0.92, 0.88⟩]).2
    ⟨"France", 0.92, 0.88⟩ (by simp) rfl (by decide)

/-- Embeds one included row of the combined per-question table
(src/app.py lines 241-246): display question name, the Electric-Twin score,
the Baseline score and their difference. -/
structure CompRow where
  question : String
  et : ℚ
  base : ℚ
  diff : ℚ
deriving Repr, DecidableEq

/-- Embeds Python `col.replace` with the one-character arguments used at
src/app.py line 236: every dot becomes a space. -/
def replaceDot (s : String) : String :=
  String.mk (s.data.map (fun c => if c = '.' then ' ' else c))

/-- Embeds NumPy rounding of an exact rational to an integer: round half to
even, the tie rule NumPy and pandas use. -/
def roundHalfEven (q : ℚ) : ℤ :=
  if q - ⌊q⌋ < 1/2 then ⌊q⌋
  else if 1/2 < q - ⌊q⌋ then ⌊q⌋ + 1
  else if ⌊q⌋ % 2 = 0 then ⌊q⌋ else ⌊q⌋ + 1

/-- Embeds `Series.round(4)` (src/app.py lines 253-254) on an exact
rational: round half to even at the fourth decimal place. -/
def round4 (q : ℚ) : ℚ := (roundHalfEven (q * 10000) : ℚ) / 10000

/-- Embeds the per-row effect of the rounding loop (src/app.py lines
252-254): the three numeric columns are rounded to 4 decimal places. -/
def roundRow (r : CompRow) : CompRow :=
  { r with et := round4 r.et, base := round4 r.base, diff := round4 r.diff }

/-- Embeds the `combined_scores` loop (src/app.py lines 233-246).  A data
cell is `Option ℚ` with `none` for a pandas `NaN`.  A column of the
Electric-Twin row that is entirely absent from the Baseline row makes
`baseline_data.iloc[0][col]` raise a `KeyError`, rendered as `Except.error`;
the key columns `Country` and `Country_clean` are skipped, and a pair is
appended only when both cells are non-missing and non-zero. -/
def combinedScores :
    List (String × Option ℚ) → List (String × Option ℚ) →
      Except String (List CompRow)
  | [], _ => .ok []
  | (col, v) :: rest, bRow =>
    if col = "Country" ∨ col = "Country_clean" then combinedScores rest bRow
    else
      match List.lookup col bRow with
      | none => .error ("KeyError: " ++ col)
      | some bv =>
        match combinedScores rest bRow with
        | .error e => .error e
        | .ok rows =>
          match v, bv with
          | some s, some t =>
            if s ≠ 0 ∧ t ≠ 0 then
              .ok (⟨replaceDot col, s, t, s - t⟩ :: rows)
            else .ok rows
          | _, _ => .ok rows

/-- Restates one step of `combined_scores` as a per-column option, used to
characterise the loop: the row the column contributes, if any. -/
def rowOf (bRow : List (String × Option ℚ)) (p : String × Option ℚ) :
    Option CompRow :=
  if p.1 = "Country" ∨ p.1 = "Country_clean" then none
  else
    match p.2, List.lookup p.1 bRow with
    | some s, some (some t) =>
      if s ≠ 0 ∧ t ≠ 0 then some ⟨replaceDot p.1, s, t, s - t⟩ else none
    | _, _ => none

/-- Inserts an indexed row into an ascending-by-score list, in front of the
first element whose score is at least as large: the insertion step of a
stable ascending insertion sort (positionally stable, no tie key). -/
def insertStable (a : ℕ × CompRow) :
    List (ℕ × CompRow) → List (ℕ × CompRow)
  | [] => [a]
  | b :: l =>
    if a.2.et ≤ b.2.et then a :: b :: l
    else b :: insertStable a l

/-- Sorts indexed rows ascending by score, stably: elements with equal
scores keep their list order.  This is the stable ascending argsort that
NumPy computes for the short arrays arising here (quicksort falls back to a
stable insertion sort below 17 elements). -/
def sortStable : List (ℕ × CompRow) → List (ℕ × CompRow)
  | [] => []
  | a :: l => insertStable a (sortStable l)

/-- Embeds `scores_df.sort_values('Electric Twin', ascending=False)`
(src/app.py line 250) on the indexed rows of the data frame.  For
`ascending=False`, pandas `nargsort` first reverses both the values and the
index array, argsorts the reversed values ascending with the requested kind
(stable here), and finally reverses the resulting indexer — the double
reversal that makes descending sorts stable (pandas GH#6399).  Row index
labels travel with their rows. -/
def sortScores (rows : List CompRow) : List (ℕ × CompRow) :=
  (sortStable rows.enum.reverse).reverse

/-- Embeds the construction and post-processing of `scores_df`
(src/app.py lines 249-254): an empty `combined_scores` list yields a data
frame with no columns at all, so `sort_values('Electric Twin')` raises a
`KeyError`; otherwise the rows are sorted descending and the three numeric
columns rounded to 4 decimals. -/
def buildScoresDf (etRow bRow : List (String × Option ℚ)) :
    Except String (List (ℕ × CompRow)) :=
  match combinedScores etRow bRow with
  | .error e => .error e
  | .ok [] => .error "KeyError: Electric Twin"
  | .ok rows => .ok ((sortScores rows).map (fun p => (p.1, roundRow p.2)))

/-- Outcome of the country-detail section (src/app.py lines 222-258):
either the no-data message, an uncaught error escaping the score-table
construction, or the displayed table. -/
inductive BuilderResult where
  | noData
  | err (msg : String)
  | table (rows : List (ℕ × CompRow))
deriving Repr, DecidableEq

/-- Embeds the country-detail flow (src/app.py lines 226-258): take the
first row of each per-question table whose cleaned country name matches the
selection; if either table has none, the page shows the no-data message,
otherwise the combined score table is built and displayed. -/
def comparisonBuilder (country : String)
    (etTbl bTbl : List (String × List (String × Option ℚ))) :
    BuilderResult :=
  match etTbl.find? (fun r => r.1 == country),
        bTbl.find? (fun r => r.1 == country) with
  | some et, some b =>
    match buildScoresDf et.2 b.2 with
    | .ok rows => .table rows
    | .error e => .err e
  | _, _ => .noData

/-- Question labels of a displayed table, in display order; empty for the
other outcomes. -/
def tableQuestions : BuilderResult → List String
  | .table rows => rows.map (fun p => p.2.question)
  | _ => []

/-- Embeds the whitespace class of Python's regex `\s` on `str` inputs: the
ASCII whitespace characters (including the file separators 28-31) together
with the Unicode whitespace code points. -/
def isPySpace (c : Char) : Bool :=
  c == ' ' || c == '\t' || c == '\n' || c == '\r' ||
  c.toNat == 11 || c.toNat == 12 ||
  (28 ≤ c.toNat && c.toNat ≤ 31) || c.toNat == 133 || c.toNat == 160 ||
  c.toNat == 5760 || (8192 ≤ c.toNat && c.toNat ≤ 8202) ||
  c.toNat == 8232 || c.toNat == 8233 || c.toNat == 8239 ||
  c.toNat == 8287 || c.toNat == 12288

/-- Matches the pattern `\s*\(\d{4}\)` of src/app.py line 39 against the end
of a string, given in reversed character order: on success returns the
remaining prefix (still reversed) with the maximal run of trailing
whitespace removed, the way the regex engine extends the greedy `\s*` to
the leftmost match position.  Digits are modelled as ASCII digits. -/
def stripRev : List Char → Option (List Char)
  | ')' :: d1 :: d2 :: d3 :: d4 :: '(' :: rest =>
    if d1.isDigit && d2.isDigit && d3.isDigit && d4.isDigit then
      some (rest.dropWhile isPySpace)
    else none
  | _ => none

/-- Embeds `re.sub(r'\s*\(\d{4}\)$', '', x)` (src/app.py lines 39, 46, 47)
on the character list of `x`.  Python's `$` (without `re.MULTILINE`) matches
at the end of the string and also just before one final newline, so both
positions are tried; when neither matches, the input is returned
unchanged. -/
def stripYearSuffixL (l : List Char) : List Char :=
  match l.reverse with
  | '\n' :: rev =>
    match stripRev rev with
    | some r => ('\n' :: r).reverse
    | none => l
  | rev =>
    match stripRev rev with
    | some r => r.reverse
    | none => l

/-- Embeds the country-name normalizer of src/app.py line 39 at the string
level. -/
def stripYearSuffix (s : String) : String :=
  String.mk (stripYearSuffixL s.data)

/-- Restates claim C4's wording of the normalizer: remove a trailing
pattern of one optional space followed by an open paren, exactly four
digits and a close paren at the end of the string; otherwise return the
string unchanged. -/
def normalizeSpecC4 (s : String) : String :=
  match s.data.reverse with
  | ')' :: d1 :: d2 :: d3 :: d4 :: '(' :: rest =>
    if d1.isDigit && d2.isDigit && d3.isDigit && d4.isDigit then
      String.mk ((if rest.head? = some ' ' then rest.tail else rest).reverse)
    else s
  | _ => s

lemma insertStable_perm (a : ℕ × CompRow) (l : List (ℕ × CompRow)) :
    (insertStable a l).Perm (a :: l) := by
  induction l with
  | nil => exact List.Perm.refl _
  | cons b l ih =>
    simp only [insertStable]
    by_cases h : a.2.et ≤ b.2.et
    · rw [if_pos h]
    · rw [if_neg h]
      exact (ih.cons b).trans (List.Perm.swap a b l)

lemma sortStable_perm (l : List (ℕ × CompRow)) : (sortStable l).Perm l := by
  induction l with
  | nil => exact List.Perm.refl _
  | cons a l ih => exact (insertStable_perm a (sortStable l)).trans (ih.cons a)

lemma insertStable_sorted (x : ℕ × CompRow) :
    ∀ {l : List (ℕ × CompRow)},
      List.Pairwise
        (fun a b : ℕ × CompRow =>
          a.2.et < b.2.et ∨ (a.2.et = b.2.et ∧ b.1 < a.1)) l →
      (∀ b ∈ l, b.1 < x.1) →
      List.Pairwise
        (fun a b : ℕ × CompRow =>
          a.2.et < b.2.et ∨ (a.2.et = b.2.et ∧ b.1 < a.1))
        (insertStable x l) := by
  intro l
  induction l with
  | nil =>
    intro _ _
    simp [insertStable]
  | cons b l ih =>
    intro hl hx
    rcases List.pairwise_cons.mp hl with ⟨hb, hl'⟩
    simp only [insertStable]
    by_cases h : x.2.et ≤ b.2.et
    · rw [if_pos h]
      refine List.pairwise_cons.mpr ⟨?_, hl⟩
      intro y hy
      rcases List.mem_cons.mp hy with rfl | hy
      · rcases lt_or_eq_of_le h with hlt | heq
        · exact Or.inl hlt
        · exact Or.inr ⟨heq, hx y (List.mem_cons_self y l)⟩
      · have hby := hb y hy
        rcases lt_or_eq_of_le h with hlt | heq
        · rcases hby with h4 | ⟨h5, _⟩
          · exact Or.inl (hlt.trans h4)
          · exact Or.inl (h5 ▸ hlt)
        · rcases hby with h4 | ⟨h5, _⟩
          · exact Or.inl (heq ▸ h4)
          · exact Or.inr ⟨heq.trans h5, hx y (List.mem_cons_of_mem b hy)⟩
    · rw [if_neg h]
      refine List.pairwise_cons.mpr
        ⟨?_, ih hl' (fun c hc => hx c (List.mem_cons_of_mem b hc))⟩
      intro y hy
      rcases List.mem_cons.mp ((insertStable_perm x l).mem_iff.mp hy) with
        rfl | hy'
      · exact Or.inl (lt_of_not_le h)
      · exact hb y hy'

lemma sortStable_sorted :
    ∀ {l : List (ℕ × CompRow)},
      List.Pairwise (fun a b : ℕ × CompRow => b.1 < a.1) l →
      List.Pairwise
        (fun a b : ℕ × CompRow =>
          a.2.et < b.2.et ∨ (a.2.et = b.2.et ∧ b.1 < a.1))
        (sortStable l) := by
  intro l
  induction l with
  | nil =>
    intro _
    exact List.Pairwise.nil
  | cons x l ih =>
    intro hdec
    rcases List.pairwise_cons.mp hdec with ⟨hxall, hdec'⟩
    exact insertStable_sorted x (ih hdec')
      (fun b hb => hxall b ((sortStable_perm l).mem_iff.mp hb))

lemma roundHalfEven_lower (q : ℚ) : ⌊q⌋ ≤ roundHalfEven q := by
  unfold roundHalfEven
  split_ifs <;> omega

lemma roundHalfEven_upper (q : ℚ) : roundHalfEven q ≤ ⌊q⌋ + 1 := by
  unfold roundHalfEven
  split_ifs <;> omega

lemma roundHalfEven_mono {x y : ℚ} (hxy : x ≤ y) :
    roundHalfEven x ≤ roundHalfEven y := by
  rcases lt_or_eq_of_le (Int.floor_le_floor hxy) with hlt | heq
  · calc roundHalfEven x ≤ ⌊x⌋ + 1 := roundHalfEven_upper x
      _ ≤ ⌊y⌋ := by omega
      _ ≤ roundHalfEven y := roundHalfEven_lower y
  · have hf : x - ⌊x⌋ ≤ y - ⌊y⌋ := by
      rw [← heq]
      push_cast
      linarith
    unfold roundHalfEven
    rw [← heq]
    split_ifs <;> first | omega | linarith

lemma round4_mono {x y : ℚ} (hxy : x ≤ y) : round4 x ≤ round4 y := by
  unfold round4
  have h1 : x * 10000 ≤ y * 10000 := by linarith
  have h2 : (roundHalfEven (x * 10000) : ℚ) ≤ (roundHalfEven (y * 10000) : ℚ) :=
    Int.cast_le.mpr (roundHalfEven_mono h1)
  have h3 : (0 : ℚ) < 10000 := by norm_num
  exact (div_le_div_right h3).mpr h2

/-- claim C2: for every country whose records exist in both tables, the
comparison builder's output is sorted by the Electric-Twin score in
descending order, and rows with equal Electric-Twin scores keep their
original question order (pandas `nargsort` pre-reverses values and index
before the stable ascending argsort and post-reverses the indexer, so the
descending sort is stable): on the sorted table original positions strictly
ascend within every tie, the final rounded table is pairwise descending,
and on a concrete tie (both questions scoring 0.9) the display order is the
original `["q1", "q2"]`. -/
theorem c2_sorted_descending_stable :
    (∀ rows : List CompRow,
      List.Pairwise
        (fun a b : ℕ × CompRow =>
          b.2.et ≤ a.2.et ∧ (b.2.et = a.2.et → a.1 < b.1))
        (sortScores rows)) ∧
    (∀ (etRow bRow : List (String × Option ℚ)) (out : List (ℕ × CompRow)),
      buildScoresDf etRow bRow = Except.ok out →
      List.Pairwise (fun a b : ℕ × CompRow => b.2.et ≤ a.2.et) out) ∧
    tableQuestions (comparisonBuilder "X"
        [("X", [("q1", some ((9 : ℚ)/10)), ("q2", some ((9 : ℚ)/10))])]
        [("X", [("q1", some ((1 : ℚ)/2)), ("q2", some ((1 : ℚ)/2))])]) =
      ["q1", "q2"] := by
  have key : ∀ rows : List CompRow,
      List.Pairwise
        (fun a b : ℕ × CompRow =>
          b.2.et ≤ a.2.et ∧ (b.2.et = a.2.et → a.1 < b.1))
        (sortScores rows) := by
    intro rows
    have hdec : rows.enum.reverse.Pairwise
        (fun a b : ℕ × CompRow => b.1 < a.1) := by
      have h1 : (List.range rows.length).Pairwise (· < ·) :=
        List.pairwise_lt_range rows.length
      have h2 : rows.enum.Pairwise (fun a b : ℕ × CompRow => a.1 < b.1) := by
        rw [← List.enum_map_fst rows] at h1
        exact List.pairwise_map.mp h1
      exact List.pairwise_reverse.mpr h2
    have hs := sortStable_sorted hdec
    unfold sortScores
    rw [List.pairwise_reverse]
    refine hs.imp ?_
    rintro a b hr
    rcases hr with h1 | ⟨h2, h3⟩
    · exact ⟨le_of_lt h1, fun heq => absurd heq (ne_of_lt h1)⟩
    · exact ⟨le_of_eq h2, fun _ => h3⟩
  refine ⟨key, ?_, ?_⟩
  · intro etRow bRow out hok
    unfold buildScoresDf at hok
    split at hok
    · cases hok
    · cases hok
    · rename_i rows0 hne heq
      injection hok with hok
      subst hok
      rw [List.pairwise_map]
      refine (key rows0).imp ?_
      rintro a b ⟨hle, _⟩
      simpa [roundRow] using round4_mono hle
  · simp +decide [comparisonBuilder, buildScoresDf, combinedScores,
      sortScores, sortStable, insertStable, roundRow, round4, roundHalfEven,
      replaceDot, tableQuestions, List.enum, List.enumFrom, List.lookup,
      List.find?]

/-- Witness for C2 on the spec's example scores `[0.6, 0.9, 0.7]`: the
built table is pairwise descending. -/
theorem c2_sorted_descending_stable_witness :
    List.Pairwise (fun a b : ℕ × CompRow => b.2.et ≤ a.2.et)
      [(1, ⟨"q2", 9/10, 1/2, 2/5⟩), (2, ⟨"q3", 7/10, 1/2, 1/5⟩),
       (0, ⟨"q1", 3/5, 1/2, 1/10⟩)] :=
  c2_sorted_descending_stable.2.1
    [("q1", some ((3 : ℚ)/5)), ("q2", some ((9 : ℚ)/10)),
     ("q3", some ((7 : ℚ)/10))]
    [("q1", some ((1 : ℚ)/2)), ("q2", some ((1 : ℚ)/2)),
     ("q3", some ((1 : ℚ)/2))]
    [(1, ⟨"q2", 9/10, 1/2, 2/5⟩), (2, ⟨"q3", 7/10, 1/2, 1/5⟩),
     (0, ⟨"q1", 3/5, 1/2, 1/10⟩)]
    (by
      have h1 : combinedScores
          [("q1", some ((3 : ℚ)/5)), ("q2", some ((9 : ℚ)/10)),
           ("q3", some ((7 : ℚ)/10))]
          [("q1", some ((1 : ℚ)/2)), ("q2", some ((1 : ℚ)/2)),
           ("q3", some ((1 : ℚ)/2))] =
          Except.ok [⟨"q1", 3/5, 1/2, 1/10⟩, ⟨"q2", 9/10, 1/2, 2/5⟩,
            ⟨"q3", 7/10, 1/2, 1/5⟩] := by
        simp +decide [combinedScores, replaceDot, List.lookup]
        all_goals norm_num
      have h2 : sortScores [⟨"q1", 3/5, 1/2, 1/10⟩, ⟨"q2", 9/10, 1/2, 2/5⟩,
            ⟨"q3", 7/10, 1/2, 1/5⟩] =
          [(1, ⟨"q2", 9/10, 1/2, 2/5⟩), (2, ⟨"q3", 7/10, 1/2, 1/5⟩),
           (0, ⟨"q1", 3/5, 1/2, 1/10⟩)] := by
        simp +decide [sortScores, sortStable, insertStable, List.enum,
          List.enumFrom]
        all_goals norm_num
        all_goals norm_num [insertStable]
      unfold buildScoresDf
      rw [h1]
      simp only [h2, List.map_cons, List.map_nil]
      norm_num [roundRow, round4, roundHalfEven, Int.fract])

/-- claim C7: a country key absent from either per-question table makes the
comparison builder return the no-data state, not an error. -/
theorem c7_missing_country_no_data (country : String)
    (etTbl bTbl : List (String × List (String × Option ℚ)))
    (h : (∀ r ∈ etTbl, r.1 ≠ country) ∨ (∀ r ∈ bTbl, r.1 ≠ country)) :
    comparisonBuilder country etTbl bTbl = BuilderResult.noData ∧
    ∀ msg, comparisonBuilder country etTbl bTbl ≠ BuilderResult.err msg := by
  have hmain : comparisonBuilder country etTbl bTbl = BuilderResult.noData := by
    unfold comparisonBuilder
    rcases h with h | h
    · have hn : etTbl.find? (fun r => r.1 == country) = none := by
        rw [List.find?_eq_none]
        intro x hx
        simpa using h x hx
      rw [hn]
    · have hn : bTbl.find? (fun r => r.1 == country) = none := by
        rw [List.find?_eq_none]
        intro x hx
        simpa using h x hx
      rw [hn]
      rcases ha : etTbl.find? (fun r => r.1 == country) with _ | a <;>
        rw [ha] <;> rfl
  refine ⟨hmain, fun msg h' => ?_⟩
  rw [hmain] at h'
  exact BuilderResult.noConfusion h'

/-- Witness for C7: a country in neither table yields the no-data state. -/
theorem c7_missing_country_witness :
    comparisonBuilder "Zanada" [("X", [])] [("X", [])] =
        BuilderResult.noData ∧
    ∀ msg, comparisonBuilder "Zanada" [("X", [])] [("X", [])] ≠
        BuilderResult.err msg :=
  c7_missing_country_no_data "Zanada" [("X", [])] [("X", [])]
    (Or.inl (by decide))

lemma rowOf_eq_some {bRow : List (String × Option ℚ)}
    {p : String × Option ℚ} {r : CompRow} (h : rowOf bRow p = some r) :
    ¬(p.1 = "Country" ∨ p.1 = "Country_clean") ∧
    ∃ s t, p.2 = some s ∧ List.lookup p.1 bRow = some (some t) ∧
      s ≠ 0 ∧ t ≠ 0 ∧ r = ⟨replaceDot p.1, s, t, s - t⟩ := by
  obtain ⟨c, v⟩ := p
  unfold rowOf at h
  by_cases hk : c = "Country" ∨ c = "Country_clean"
  · rw [if_pos hk] at h
    cases h
  · rw [if_neg hk] at h
    refine ⟨hk, ?_⟩
    rcases v with _ | s
    · cases h
    · rcases hlk : List.lookup c bRow with _ | bv
      · simp only [hlk] at h
        cases h
      · rcases bv with _ | t
        · simp only [hlk] at h
          cases h
        · simp only [hlk] at h
          by_cases hz : s ≠ 0 ∧ t ≠ 0
          · rw [if_pos hz] at h
            injection h with h
            exact ⟨s, t, rfl, rfl, hz.1, hz.2, h.symm⟩
          · rw [if_neg hz] at h
            cases h

lemma rowOf_build {bRow : List (String × Option ℚ)} {col : String}
    {v : Option ℚ} {s t : ℚ}
    (hkey : ¬(col = "Country" ∨ col = "Country_clean"))
    (hv : v = some s) (hlk : List.lookup col bRow = some (some t))
    (hs : s ≠ 0) (ht : t ≠ 0) :
    rowOf bRow (col, v) = some ⟨replaceDot col, s, t, s - t⟩ := by
  unfold rowOf
  rw [if_neg hkey]
  simp only [hv, hlk]
  rw [if_pos ⟨hs, ht⟩]

lemma combinedScores_ok :
    ∀ (etRow bRow : List (String × Option ℚ)) (rows : List CompRow),
      combinedScores etRow bRow = Except.ok rows →
      rows = etRow.filterMap (rowOf bRow) := by
  intro etRow
  induction etRow with
  | nil =>
    intro bRow rows h
    simp only [combinedScores] at h
    injection h with h
    simp [← h]
  | cons p rest ih =>
    rintro bRow rows h
    obtain ⟨col, v⟩ := p
    simp only [combinedScores] at h
    by_cases hk : col = "Country" ∨ col = "Country_clean"
    · rw [if_pos hk] at h
      have hrow : rowOf bRow (col, v) = none := by
        unfold rowOf
        rw [if_pos hk]
      rw [List.filterMap_cons, hrow]
      exact ih bRow rows h
    · rw [if_neg hk] at h
      rcases hlk : List.lookup col bRow with _ | bv
      · rw [hlk] at h
        cases h
      · rw [hlk] at h
        rcases hrec : combinedScores rest bRow with e | rows'
        · rw [hrec] at h
          cases h
        · rw [hrec] at h
          have htail := ih bRow rows' hrec
          rw [List.filterMap_cons]
          rcases hv : v with _ | s
          · subst hv
            simp only [] at h
            injection h with h
            have hrow : rowOf bRow (col, none) = none := by
              unfold rowOf
              rw [if_neg hk]
            rw [hrow, ← h]
            exact htail
          · subst hv
            rcases bv with _ | t
            · simp only [] at h
              injection h with h
              have hrow : rowOf bRow (col, some s) = none := by
                unfold rowOf
                rw [if_neg hk]
                simp only [hlk]
              rw [hrow, ← h]
              exact htail
            · simp only [] at h
              by_cases hz : s ≠ 0 ∧ t ≠ 0
              · rw [if_pos hz] at h
                injection h with h
                rw [rowOf_build hk rfl hlk hz.1 hz.2, ← h, htail]
              · rw [if_neg hz] at h
                injection h with h
                have hrow : rowOf bRow (col, some s) = none := by
                  unfold rowOf
                  rw [if_neg hk]
                  simp only [hlk]
                  rw [if_neg hz]
                rw [hrow, ← h]
                exact htail

/-- claim C3: for a question column of the selected country's Electric-Twin
record (with distinct display labels), the builder's included rows contain
that question exactly when both the Electric-Twin and the Baseline cell are
present (not `NaN`) and both are non-zero; a zero or a missing value on
either side excludes the pair. -/
theorem c3_zero_missing_filter
    (etRow bRow : List (String × Option ℚ)) (rows : List CompRow)
    (hnd : (etRow.map (fun p => replaceDot p.1)).Nodup)
    (hok : combinedScores etRow bRow = Except.ok rows)
    (col : String) (v : Option ℚ) (hmem : (col, v) ∈ etRow)
    (hkey : ¬(col = "Country" ∨ col = "Country_clean")) :
    (∃ r ∈ rows, r.question = replaceDot col) ↔
      ∃ s t, v = some s ∧ List.lookup col bRow = some (some t) ∧
        s ≠ 0 ∧ t ≠ 0 := by
  rw [combinedScores_ok etRow bRow rows hok]
  constructor
  · rintro ⟨r, hr, hq⟩
    rcases List.mem_filterMap.mp hr with ⟨⟨c, w⟩, hcmem, hsome⟩
    obtain ⟨-, s, t, hv, hlk, hs, ht, hrw⟩ := rowOf_eq_some hsome
    have hcc : (fun p : String × Option ℚ => replaceDot p.1) (c, w) =
        (fun p : String × Option ℚ => replaceDot p.1) (col, v) := by
      simpa using (hrw ▸ hq : (⟨replaceDot c, s, t, s - t⟩ : CompRow).question = replaceDot col)
    have heq := List.inj_on_of_nodup_map hnd hcmem hmem hcc
    injection heq with h1 h2
    subst h1
    subst h2
    exact ⟨s, t, hv, hlk, hs, ht⟩
  · rintro ⟨s, t, hv, hlk, hs, ht⟩
    refine ⟨⟨replaceDot col, s, t, s - t⟩, ?_, rfl⟩
    exact List.mem_filterMap.mpr
      ⟨(col, v), hmem, rowOf_build hkey hv hlk hs ht⟩

/-- Witness for C3 on the spec example: Electric-Twin record
`{q1: 0.9, q2: 0.0, q3: missing}` and Baseline record
`{q1: 0.7, q2: 0.5, q3: 0.6}` include exactly the pair for `q1`. -/
theorem c3_zero_missing_filter_witness :
    ∃ r ∈ [(⟨"q1", 9/10, 7/10, 9/10 - 7/10⟩ : CompRow)],
      r.question = replaceDot "q1" :=
  (c3_zero_missing_filter
      [("q1", some ((9 : ℚ)/10)), ("q2", some (0 : ℚ)), ("q3", none)]
      [("q1", some ((7 : ℚ)/10)), ("q2", some ((1 : ℚ)/2)),
       ("q3", some ((3 : ℚ)/5))]
      [⟨"q1", 9/10, 7/10, 9/10 - 7/10⟩]
      (by decide)
      (by
        simp +decide [combinedScores, replaceDot, List.lookup]
        all_goals norm_num)
      "q1" (some ((9 : ℚ)/10)) (by simp) (by decide)).mpr
    ⟨9/10, 7/10, rfl, by simp [List.lookup], by norm_num, by norm_num⟩

/-- claim C8: every row of the built table comes from a question pair with
both cells present and non-zero, and carries the question identifier with
dots replaced by spaces together with the Electric-Twin score, the Baseline
score and their difference `score_et - score_baseline`, each rounded to 4
decimal places. -/
theorem c8_row_fields (etRow bRow : List (String × Option ℚ))
    (out : List (ℕ × CompRow))
    (hok : buildScoresDf etRow bRow = Except.ok out) :
    ∀ p ∈ out, ∃ col s t, (col, some s) ∈ etRow ∧
      List.lookup col bRow = some (some t) ∧ s ≠ 0 ∧ t ≠ 0 ∧
      p.2 = ⟨replaceDot col, round4 s, round4 t, round4 (s - t)⟩ := by
  intro p hp
  unfold buildScoresDf at hok
  split at hok
  · cases hok
  · cases hok
  · rename_i mid hne heq
    injection hok with hok
    subst hok
    rcases List.mem_map.mp hp with ⟨q, hq, rfl⟩
    have hq2 : q.2 ∈ mid := by
      have h1 : q ∈ sortStable mid.enum.reverse := by
        have := hq
        unfold sortScores at this
        exact List.mem_reverse.mp this
      have h2 : q ∈ mid.enum :=
        List.mem_reverse.mp ((sortStable_perm mid.enum.reverse).mem_iff.mp h1)
      have h3 : q.2 ∈ List.map Prod.snd mid.enum :=
        List.mem_map_of_mem Prod.snd h2
      rwa [List.enum_map_snd] at h3
    rw [combinedScores_ok etRow bRow mid heq] at hq2
    rcases List.mem_filterMap.mp hq2 with ⟨⟨c, w⟩, hcmem, hsome⟩
    obtain ⟨-, s, t, hv, hlk, hs, ht, hrw⟩ := rowOf_eq_some hsome
    refine ⟨c, s, t, ?_, hlk, hs, ht, ?_⟩
    · simpa [← hv] using hcmem
    · rw [hrw]
      simp [roundRow]

/-- Witness for C8 on a one-question table. -/
theorem c8_row_fields_witness :
    ∃ col s t, (col, some s) ∈ [("q1", some ((9 : ℚ)/10))] ∧
      List.lookup col [("q1", some ((7 : ℚ)/10))] = some (some t) ∧
      s ≠ 0 ∧ t ≠ 0 ∧
      ((0 : ℕ), (⟨"q1", 9/10, 7/10, 1/5⟩ : CompRow)).2 =
        ⟨replaceDot col, round4 s, round4 t, round4 (s - t)⟩ :=
  c8_row_fields [("q1", some ((9 : ℚ)/10))] [("q1", some ((7 : ℚ)/10))]
    [(0, ⟨"q1", 9/10, 7/10, 1/5⟩)]
    (by
      have h1 : combinedScores [("q1", some ((9 : ℚ)/10))]
          [("q1", some ((7 : ℚ)/10))] =
          Except.ok [⟨"q1", 9/10, 7/10, 1/5⟩] := by
        simp +decide [combinedScores, replaceDot, List.lookup]
        norm_num
      have h2 : sortScores [(⟨"q1", 9/10, 7/10, 1/5⟩ : CompRow)] =
          [(0, ⟨"q1", 9/10, 7/10, 1/5⟩)] := by
        simp [sortScores, sortStable, insertStable, List.enum,
          List.enumFrom]
      unfold buildScoresDf
      rw [h1]
      simp only [h2, List.map_cons, List.map_nil]
      norm_num [roundRow, round4, roundHalfEven, Int.fract])
    (0, ⟨"q1", 9/10, 7/10, 1/5⟩) (by simp)

lemma length_four_exists {y : List Char} (h : y.length = 4) :
    ∃ a b c d, y = [a, b, c, d] := by
  rcases y with _ | ⟨a, y⟩
  · simp at h
  rcases y with _ | ⟨b, y⟩
  · simp at h
  rcases y with _ | ⟨c, y⟩
  · simp at h
  rcases y with _ | ⟨d, y⟩
  · simp at h
  rcases y with _ | ⟨e, y⟩
  · exact ⟨a, b, c, d, rfl⟩
  · simp at h

lemma dropWhile_append_all {ws t : List Char}
    (h : ∀ c ∈ ws, isPySpace c = true) :
    (ws ++ t).dropWhile isPySpace = t.dropWhile isPySpace := by
  induction ws with
  | nil => rfl
  | cons a ws ih =>
    have ha := h a (List.mem_cons_self a ws)
    simp only [List.cons_append, List.dropWhile_cons, ha, if_true]
    exact ih (fun c hc => h c (List.mem_cons_of_mem a hc))

lemma dropWhile_head_not {t : List Char}
    (hp : ∀ c, t.head? = some c → isPySpace c = false) :
    t.dropWhile isPySpace = t := by
  cases t with
  | nil => rfl
  | cons a t =>
    have ha := hp a rfl
    simp [List.dropWhile_cons, ha]

lemma stripYearSuffixL_strip (p w : List Char) (a b c d : Char)
    (hw : ∀ x ∈ w, isPySpace x = true)
    (hp : ∀ x, p.getLast? = some x → isPySpace x = false)
    (hd : (a.isDigit && b.isDigit && c.isDigit && d.isDigit) = true) :
    stripYearSuffixL (p ++ w ++ '(' :: ([a, b, c, d] ++ [')'])) = p := by
  have hdrop : (w.reverse ++ p.reverse).dropWhile isPySpace = p.reverse := by
    rw [dropWhile_append_all (fun x hx => hw x (List.mem_reverse.mp hx))]
    exact dropWhile_head_not (fun x hx => hp x (by rwa [List.head?_reverse] at hx))
  have hrev : (p ++ w ++ '(' :: ([a, b, c, d] ++ [')'])).reverse
      = ')' :: d :: c :: b :: a :: '(' :: (w.reverse ++ p.reverse) := by
    simp [List.reverse_append]
  have hDs := hd
  simp only [Bool.and_eq_true] at hDs
  obtain ⟨⟨⟨hda, hdb⟩, hdc⟩, hdd⟩ := hDs
  have hs : stripRev (')' :: d :: c :: b :: a :: '(' :: (w.reverse ++ p.reverse))
      = some p.reverse := by
    show (if (d.isDigit && c.isDigit && b.isDigit && a.isDigit) = true then
        some (List.dropWhile isPySpace (w.reverse ++ p.reverse)) else none) =
      some p.reverse
    rw [if_pos (by simp [hda, hdb, hdc, hdd]), hdrop]
  unfold stripYearSuffixL
  rw [hrev]
  split
  · rename_i rev heq
    injection heq with h1 h2
    exact absurd h1 (by decide)
  · rw [hs]
    show p.reverse.reverse = p
    exact List.reverse_reverse p

lemma stripYearSuffixL_strip_newline (p w : List Char) (a b c d : Char)
    (hw : ∀ x ∈ w, isPySpace x = true)
    (hp : ∀ x, p.getLast? = some x → isPySpace x = false)
    (hd : (a.isDigit && b.isDigit && c.isDigit && d.isDigit) = true) :
    stripYearSuffixL (p ++ w ++ '(' :: ([a, b, c, d] ++ [')', '\n'])) =
      p ++ ['\n'] := by
  have hdrop : (w.reverse ++ p.reverse).dropWhile isPySpace = p.reverse := by
    rw [dropWhile_append_all (fun x hx => hw x (List.mem_reverse.mp hx))]
    exact dropWhile_head_not
      (fun x hx => hp x (by rwa [List.head?_reverse] at hx))
  have hDs := hd
  simp only [Bool.and_eq_true] at hDs
  obtain ⟨⟨⟨hda, hdb⟩, hdc⟩, hdd⟩ := hDs
  have hs : stripRev (')' :: d :: c :: b :: a :: '(' :: (w.reverse ++ p.reverse))
      = some p.reverse := by
    show (if (d.isDigit && c.isDigit && b.isDigit && a.isDigit) = true then
        some (List.dropWhile isPySpace (w.reverse ++ p.reverse)) else none) =
      some p.reverse
    rw [if_pos (by simp [hda, hdb, hdc, hdd]), hdrop]
  have hrev : (p ++ w ++ '(' :: ([a, b, c, d] ++ [')', '\n'])).reverse
      = '\n' :: ')' :: d :: c :: b :: a :: '(' :: (w.reverse ++ p.reverse) := by
    simp [List.reverse_append]
  unfold stripYearSuffixL
  rw [hrev]
  split
  · rename_i rev heq
    injection heq with h1 h2
    subst h2
    rw [hs]
    show ('\n' :: p.reverse).reverse = p ++ ['\n']
    simp
  · rename_i hcatch
    exact absurd rfl (hcatch (')' :: d :: c :: b :: a :: '(' :: (w.reverse ++ p.reverse)))

lemma stripRev_some_decomp {rl r : List Char} (h : stripRev rl = some r) :
    ∃ (d1 d2 d3 d4 : Char) (rest : List Char),
      rl = ')' :: d1 :: d2 :: d3 :: d4 :: '(' :: rest ∧
      (d1.isDigit && d2.isDigit && d3.isDigit && d4.isDigit) = true ∧
      r = rest.dropWhile isPySpace := by
  unfold stripRev at h
  split at h
  · rename_i d1 d2 d3 d4 rest
    split at h
    · rename_i hcond
      injection h with h
      exact ⟨d1, d2, d3, d4, rest, rfl, hcond, h.symm⟩
    · cases h
  · cases h


lemma stripYearSuffixL_no_match {l : List Char}
    (hno : ¬ ∃ (p w y : List Char),
        (l = p ++ w ++ '(' :: (y ++ [')']) ∨
          l = p ++ w ++ '(' :: (y ++ [')', '\n'])) ∧
        (∀ c ∈ w, isPySpace c = true) ∧ y.length = 4 ∧
        (∀ c ∈ y, c.isDigit = true)) :
    stripYearSuffixL l = l := by
  unfold stripYearSuffixL
  split
  · rename_i rev heq
    rcases hsr : stripRev rev with _ | r
    · rfl
    · exfalso
      obtain ⟨d1, d2, d3, d4, rest, hrl, hcond, -⟩ := stripRev_some_decomp hsr
      apply hno
      have hl : l = rev.reverse ++ ['\n'] := by
        have h0 := congrArg List.reverse heq
        rw [List.reverse_reverse] at h0
        simpa using h0
      simp only [Bool.and_eq_true] at hcond
      obtain ⟨⟨⟨h1, h2⟩, h3⟩, h4⟩ := hcond
      have hsplit : rest.reverse =
          (rest.dropWhile isPySpace).reverse ++
            (rest.takeWhile isPySpace).reverse := by
        rw [← List.reverse_append, List.takeWhile_append_dropWhile]
      refine ⟨(rest.dropWhile isPySpace).reverse,
        (rest.takeWhile isPySpace).reverse, [d4, d3, d2, d1], Or.inr ?_,
        ?_, rfl, ?_⟩
      · rw [hl, hrl]
        rw [show (')' :: d1 :: d2 :: d3 :: d4 :: '(' :: rest).reverse =
            rest.reverse ++ ['(', d4, d3, d2, d1, ')'] from by simp]
        rw [hsplit]
        simp [List.append_assoc]
      · intro x hx
        exact List.mem_takeWhile_imp (List.mem_reverse.mp hx)
      · intro x hx
        simp only [List.mem_cons, List.not_mem_nil, or_false] at hx
        rcases hx with rfl | rfl | rfl | rfl
        · exact h4
        · exact h3
        · exact h2
        · exact h1
  · rcases hsr : stripRev l.reverse with _ | r
    · rfl
    · exfalso
      obtain ⟨d1, d2, d3, d4, rest, hrl, hcond, -⟩ := stripRev_some_decomp hsr
      apply hno
      have hl : l = (')' :: d1 :: d2 :: d3 :: d4 :: '(' :: rest).reverse := by
        have h0 := congrArg List.reverse hrl
        rwa [List.reverse_reverse] at h0
      simp only [Bool.and_eq_true] at hcond
      obtain ⟨⟨⟨h1, h2⟩, h3⟩, h4⟩ := hcond
      have hsplit : rest.reverse =
          (rest.dropWhile isPySpace).reverse ++
            (rest.takeWhile isPySpace).reverse := by
        rw [← List.reverse_append, List.takeWhile_append_dropWhile]
      refine ⟨(rest.dropWhile isPySpace).reverse,
        (rest.takeWhile isPySpace).reverse, [d4, d3, d2, d1], Or.inl ?_,
        ?_, rfl, ?_⟩
      · rw [hl]
        rw [show (')' :: d1 :: d2 :: d3 :: d4 :: '(' :: rest).reverse =
            rest.reverse ++ ['(', d4, d3, d2, d1, ')'] from by simp]
        rw [hsplit]
        simp [List.append_assoc]
      · intro x hx
        exact List.mem_takeWhile_imp (List.mem_reverse.mp hx)
      · intro x hx
        simp only [List.mem_cons, List.not_mem_nil, or_false] at hx
        rcases hx with rfl | rfl | rfl | rfl
        · exact h4
        · exact h3
        · exact h2
        · exact h1

/-- claim C4, counterexample: on a label with two spaces before the year
suffix the code removes the whole whitespace run while the claim's
"optional space" reading leaves one space behind. -/
theorem c4_optional_space_counterexample :
    stripYearSuffix "France  (2021)" = "France" ∧
    normalizeSpecC4 "France  (2021)" = "France " ∧
    stripYearSuffix "France  (2021)" ≠ normalizeSpecC4 "France  (2021)" :=
  ⟨by decide, by decide, by decide⟩

/-- claim C4 as amended: the normalizer removes a trailing pattern of a run
of zero or more whitespace characters (the maximal such run) followed by an
open paren, exactly four digits and a close paren, at the end of the string
or immediately before a single final newline (which is kept); a string
(over ASCII, where the embedded whitespace and digit classes coincide with
Python's) with no such suffix is returned unchanged, and in particular
"France (2021)" becomes "France" and "United States" is unchanged. -/
theorem c4_strip_year_suffix (p w y : List Char)
    (hw : ∀ c ∈ w, isPySpace c = true)
    (hp : ∀ c, p.getLast? = some c → isPySpace c = false)
    (hy : y.length = 4) (hyd : ∀ c ∈ y, c.isDigit = true) :
    stripYearSuffix (String.mk (p ++ w ++ '(' :: (y ++ [')']))) =
      String.mk p ∧
    stripYearSuffix (String.mk (p ++ w ++ '(' :: (y ++ [')', '\n']))) =
      String.mk (p ++ ['\n']) ∧
    (∀ l : List Char, (∀ c ∈ l, c.toNat < 128) →
      ¬(∃ p2 w2 y2 : List Char,
        (l = p2 ++ w2 ++ '(' :: (y2 ++ [')']) ∨
          l = p2 ++ w2 ++ '(' :: (y2 ++ [')', '\n'])) ∧
        (∀ c ∈ w2, isPySpace c = true) ∧ y2.length = 4 ∧
        (∀ c ∈ y2, c.isDigit = true)) →
      stripYearSuffix (String.mk l) = String.mk l) ∧
    stripYearSuffix "France (2021)" = "France" ∧
    stripYearSuffix "United States" = "United States" := by
  obtain ⟨a, b, c, d, rfl⟩ := length_four_exists hy
  have hd : (a.isDigit && b.isDigit && c.isDigit && d.isDigit) = true := by
    simp [hyd a (by simp), hyd b (by simp), hyd c (by simp),
      hyd d (by simp)]
  refine ⟨?_, ?_, ?_, by decide, by decide⟩
  · unfold stripYearSuffix
    rw [show (String.mk (p ++ w ++ '(' :: ([a, b, c, d] ++ [')']))).data =
        p ++ w ++ '(' :: ([a, b, c, d] ++ [')']) from rfl]
    rw [stripYearSuffixL_strip p w a b c d hw hp hd]
  · unfold stripYearSuffix
    rw [show (String.mk (p ++ w ++ '(' :: ([a, b, c, d] ++ [')', '\n']))).data =
        p ++ w ++ '(' :: ([a, b, c, d] ++ [')', '\n']) from rfl]
    rw [stripYearSuffixL_strip_newline p w a b c d hw hp hd]
  · intro l hascii hnot
    unfold stripYearSuffix
    rw [show (String.mk l).data = l from rfl]
    rw [stripYearSuffixL_no_match hnot]

/-- Witness for the amended C4 at the concrete label "France (2021)". -/
theorem c4_strip_year_suffix_witness :
    stripYearSuffix (String.mk ("France".data ++ [' '] ++
      '(' :: (['2', '0', '2', '1'] ++ [')']))) = String.mk "France".data :=
  (c4_strip_year_suffix "France".data [' '] ['2', '0', '2', '1']
    (by decide)
    (by
      intro c hc
      have h4 : "France".data.getLast? = some 'e' := by decide
      rw [h4] at hc
      injection hc with hc
      rw [← hc]
      decide)
    (by decide) (by decide)).1

/-- claim C9 evaluated at its failing input: a country present in both
per-question tables whose only pair is excluded by the zero filter makes
`combined_scores` empty, so `pd.DataFrame([])` has no columns and
`sort_values('Electric Twin')` raises an uncaught `KeyError` instead of
yielding an empty table. -/
theorem c9_empty_filter_keyerror :
    comparisonBuilder "X" [("X", [("q1", some (0 : ℚ))])]
        [("X", [("q1", some ((1 : ℚ)/2))])] =
      BuilderResult.err "KeyError: Electric Twin" := by
  simp +decide [comparisonBuilder, buildScoresDf, combinedScores,
    List.lookup, List.find?]

end ETMaps
